import Mathlib

/-
Verification development for the AgoraX_Video signaling server
(src/server.ts) and client application (src/client/app.ts).

The server keeps socket.io adapter rooms: every connected socket is a
member of the room named by its own socket id (its personal room), plus
every room it explicitly joined via the `join` event.  Emits are modelled
as lists of (recipient, message) pairs.

The client keeps two JavaScript Maps, `peerConnections` and
`remoteVideos`, keyed by peer socket id; they are modelled as association
lists whose operations mirror Map.get / Map.set / Map.delete / Map.has.
-/

namespace AgoraX

/-! ## Association-list model of JavaScript Map -/

/-- Model of `Map.get`: first binding of the key, if any. -/
def mapGet {α : Type} (m : List (String × α)) (k : String) : Option α :=
  List.lookup k m

/-- Model of `Map.has`. -/
def mapHas {α : Type} (m : List (String × α)) (k : String) : Bool :=
  (mapGet m k).isSome

/-- In-place replacement of every binding of a key. -/
def replaceKey {α : Type} (m : List (String × α)) (k : String) (v : α) :
    List (String × α) :=
  m.map (fun p => if p.1 = k then (k, v) else p)

/-- Model of `Map.set`: replace the binding in place when the key is present,
append it otherwise (JavaScript Map keys are unique). -/
def mapSet {α : Type} (m : List (String × α)) (k : String) (v : α) :
    List (String × α) :=
  if mapHas m k then replaceKey m k v else m ++ [(k, v)]

/-- Model of `Map.delete`: remove the binding for the key. -/
def mapDelete {α : Type} (m : List (String × α)) (k : String) :
    List (String × α) :=
  m.filter (fun p => p.1 ≠ k)

/-- Keys of the map are pairwise distinct (true of a JavaScript Map). -/
def NoDupKeys {α : Type} (m : List (String × α)) : Prop :=
  (m.map Prod.fst).Nodup

/-! ## Server model (src/server.ts)

The server state consists of the set of connected sockets and the
explicit room joins performed via `socket.join(roomId)`.  socket.io also
puts each socket into a personal room named by its own id; the adapter
room for a name `r` therefore contains every connected socket `c` with
`c = r` or an explicit join `(c, r)`. -/

/-- Messages the server emits to clients. -/
inductive Msg : Type where
  | peerJoined (pid : String) : Msg
  | signalMsg (fromId : String) (roomId : String) (ty : String)
      (toField : Option String) : Msg
  | peerLeft (pid : String) : Msg
deriving DecidableEq, Repr

/-- Server-side state: connected sockets and explicit room joins. -/
structure ServerState : Type where
  connected : List String
  joined : List (String × String)
deriving DecidableEq, Repr

/-- Model of `io.sockets.adapter.rooms.get(r)`: the sockets in room `r`, i.e. the
connected sockets whose personal room is `r` or that explicitly joined
`r`. -/
def adapterRoom (s : ServerState) (r : String) : List String :=
  s.connected.filter (fun c => c = r ∨ (c, r) ∈ s.joined)

/-- Model of `socket.join(roomId)`: adds the pair to the join set (a no-op when
already present, since socket.io rooms are sets). -/
def joinPair (s : ServerState) (sid r : String) : ServerState :=
  if (sid, r) ∈ s.joined then s
  else { s with joined := s.joined ++ [(sid, r)] }

/-- The `join` handler (src/server.ts lines 48-62): announce each
existing room member to the joining socket, then `socket.join(roomId)`,
then announce the joining socket to the other room members.  Returns the
new state and the emitted (recipient, message) list. -/
def joinServer (s : ServerState) (sid r : String) :
    ServerState × List (String × Msg) :=
  let toNewcomer := ((adapterRoom s r).filter (fun e => e ≠ sid)).map
    (fun e => (sid, Msg.peerJoined e))
  let s1 := joinPair s sid r
  let toExisting := ((adapterRoom s1 r).filter (fun e => e ≠ sid)).map
    (fun e => (e, Msg.peerJoined sid))
  (s1, toNewcomer ++ toExisting)

/-- The `signal` handler (src/server.ts lines 64-71): when `data.to` is
set, `io.to(target)` emits to every socket of the adapter room named by
the target; otherwise `socket.to(roomId)` emits to every room member
except the sender.  The relayed message records the sender id. -/
def signalServer (s : ServerState) (sid r : String) (ty : String)
    (toField : Option String) : ServerState × List (String × Msg) :=
  match toField with
  | some target =>
    (s, (adapterRoom s target).map
      (fun e => (e, Msg.signalMsg sid r ty (some target))))
  | none =>
    (s, ((adapterRoom s r).filter (fun e => e ≠ sid)).map
      (fun e => (e, Msg.signalMsg sid r ty none)))

/-- The rooms a socket is in besides its personal room, as computed by
`[...socket.rooms].filter(r => r !== socket.id)`. -/
def roomsOfClient (s : ServerState) (sid : String) : List String :=
  (s.joined.filter (fun p => p.1 = sid ∧ p.2 ≠ sid)).map Prod.snd

/-- The `disconnecting` handler (src/server.ts lines 73-78): for each
room the socket was in, emit `peer-left` to the other members; the
socket then leaves all rooms and the connection set. -/
def disconnecting (s : ServerState) (sid : String) :
    ServerState × List (String × Msg) :=
  let emits := (roomsOfClient s sid).flatMap (fun r =>
    ((adapterRoom s r).filter (fun e => e ≠ sid)).map
      (fun e => (e, Msg.peerLeft sid)))
  ({ connected := s.connected.filter (fun c => c ≠ sid),
     joined := s.joined.filter (fun p => p.1 ≠ sid) }, emits)

/-- Well-formedness maintained by socket.io: the connection set and the
join set have no duplicates. -/
def ServerState.WF (s : ServerState) : Prop :=
  s.connected.Nodup ∧ s.joined.Nodup

/-! ## Client model (src/client/app.ts)

`RTCPeerConnection`, `createOffer`, `createAnswer`, `addIceCandidate`
and the DOM video elements are browser primitives; they are modelled
executably: a connection records its descriptions, attached local
tracks, successfully-added remote candidates, its closed flag and which
event listeners the application installed on it. -/

/-- A session description (`{type, sdp}`). -/
structure SDesc : Type where
  ty : String
  sdp : Option String
deriving DecidableEq, Repr

/-- An ICE candidate; `wellFormed` models whether the browser accepts
it in `addIceCandidate`. -/
structure Candidate : Type where
  cid : String
  wellFormed : Bool
deriving DecidableEq, Repr

/-- Model of an `RTCPeerConnection` object. -/
structure PC : Type where
  remoteDesc : Option SDesc
  localDesc : Option SDesc
  tracks : List String
  candidates : List Candidate
  closed : Bool
  trackListener : Bool
  iceListener : Bool
deriving DecidableEq, Repr

/-- Model of `new RTCPeerConnection({iceServers})`: fresh connection, nothing
attached yet. -/
def newPC : PC :=
  { remoteDesc := none, localDesc := none, tracks := [], candidates := [],
    closed := false, trackListener := false, iceListener := false }

/-- Model of a remote `<video>` element: the stream id currently set as
its `srcObject`. -/
structure VideoEl : Type where
  srcObject : Option String
deriving DecidableEq, Repr

/-- The signaling payload sent by the client
(`{type, sdp?, candidate?, to?}`). -/
structure SignalData : Type where
  ty : String
  sdp : Option String
  cand : Option Candidate
  toField : Option String
deriving DecidableEq, Repr

/-- Messages the client emits on its socket. -/
inductive ClientOut : Type where
  | joinReq (roomId : String) : ClientOut
  | signalOut (roomId : Option String) (data : SignalData) : ClientOut
deriving DecidableEq, Repr

/-- Client-side state: the local media stream (as its track ids, when
acquired), the `peerConnections` and `remoteVideos` maps, and the
current `roomId`. -/
structure ClientState : Type where
  localStream : Option (List String)
  peerConnections : List (String × PC)
  remoteVideos : List (String × VideoEl)
  roomId : Option String
deriving DecidableEq, Repr

/-- Model of the browser's `createOffer`: produces an offer description
from the connection's attached tracks. -/
def createOffer (pc : PC) : SDesc :=
  { ty := "offer", sdp := some ("offer-" ++ String.intercalate "," pc.tracks) }

/-- Model of the browser's `createAnswer`: produces an answer
description derived from the applied remote description. -/
def createAnswer (pc : PC) : SDesc :=
  { ty := "answer",
    sdp := some ("answer-" ++ (match pc.remoteDesc with
      | some d => d.sdp.getD ""
      | none => "")) }

/-- Model of the browser's `addIceCandidate`: fails (rejected promise)
on a malformed candidate or a closed connection, otherwise records the
candidate. -/
def addIceCandidate (pc : PC) (c : Candidate) : Option PC :=
  if c.wellFormed && !pc.closed then
    some { pc with candidates := pc.candidates ++ [c] }
  else none

/-- Function `createPeerConnection(peerId)` (src/client/app.ts lines 122-160):
return the registered connection if present; otherwise register a fresh
one, and — only when local media is held — attach every local track and
install the `track` and `icecandidate` listeners. -/
def createPeerConnection (s : ClientState) (peerId : String) :
    ClientState × PC :=
  match mapGet s.peerConnections peerId with
  | some pc => (s, pc)
  | none =>
    match s.localStream with
    | none =>
      (({ s with peerConnections := mapSet s.peerConnections peerId newPC }),
        newPC)
    | some ts =>
      let pc := { newPC with
        tracks := ts, trackListener := true, iceListener := true }
      (({ s with peerConnections := mapSet s.peerConnections peerId pc }), pc)

/-- Function `makeCall(peerId)` (lines 174-179): get or create the connection,
create an offer, set it as local description, emit the offer envelope
addressed to the peer. -/
def makeCall (s : ClientState) (peerId : String) :
    ClientState × List ClientOut :=
  let res := createPeerConnection s peerId
  let offer := createOffer res.2
  let pc1 := { res.2 with localDesc := some offer }
  (({ res.1 with
      peerConnections := mapSet res.1.peerConnections peerId pc1 }),
    [ClientOut.signalOut s.roomId
      { ty := "offer", sdp := offer.sdp, cand := none,
        toField := some peerId }])

/-- The `peer-joined` handler (lines 267-269): unconditionally calls
`makeCall` toward the announced peer. -/
def onPeerJoined (s : ClientState) (peerId : String) :
    ClientState × List ClientOut :=
  makeCall s peerId

/-- Function `handleOffer(from, sdp)` (lines 195-201): get or create the
connection, apply the remote offer, create an answer, set it locally,
emit the answer envelope addressed back to the offerer. -/
def handleOffer (s : ClientState) (fromId : String) (sdp : String) :
    ClientState × List ClientOut :=
  let res := createPeerConnection s fromId
  let pc1 := { res.2 with remoteDesc := some { ty := "offer", sdp := some sdp } }
  let answer := createAnswer pc1
  let pc2 := { pc1 with localDesc := some answer }
  (({ res.1 with
      peerConnections := mapSet res.1.peerConnections fromId pc2 }),
    [ClientOut.signalOut s.roomId
      { ty := "answer", sdp := answer.sdp, cand := none,
        toField := some fromId }])

/-- Function `handleAnswer(from, sdp)` (lines 214-218): a no-op when no
connection is registered for the sender; otherwise applies the remote
answer. -/
def handleAnswer (s : ClientState) (fromId : String) (sdp : String) :
    ClientState × List ClientOut :=
  match mapGet s.peerConnections fromId with
  | none => (s, [])
  | some pc =>
    let pc1 := { pc with
      remoteDesc := some { ty := "answer", sdp := some sdp } }
    (({ s with peerConnections := mapSet s.peerConnections fromId pc1 }), [])

/-- Function `handleCandidate(from, candidate)` (lines 231-237): a no-op when no
connection is registered for the sender; otherwise tries to add the
candidate, catching and ignoring any failure. -/
def handleCandidate (s : ClientState) (fromId : String) (c : Candidate) :
    ClientState × List ClientOut :=
  match mapGet s.peerConnections fromId with
  | none => (s, [])
  | some pc =>
    match addIceCandidate pc c with
    | some pc1 =>
      (({ s with peerConnections := mapSet s.peerConnections fromId pc1 }),
        [])
    | none => (s, [])

/-- The `peer-left` handler (lines 310-322): close and delete the
registered connection if any, then null the video's stream and delete
the video entry if any. -/
def removePeer (s : ClientState) (peerId : String) : ClientState :=
  let pcs := match mapGet s.peerConnections peerId with
    | some _ => mapDelete s.peerConnections peerId
    | none => s.peerConnections
  let rvs := match mapGet s.remoteVideos peerId with
    | some _ => mapDelete s.remoteVideos peerId
    | none => s.remoteVideos
  { s with peerConnections := pcs, remoteVideos := rvs }

/-- Dispatch of a `track` event for a peer's connection: the listener
body (lines 132-151) runs only if the application installed a listener
on that connection; it lazily creates the remote video element and sets
its stream. -/
def dispatchTrack (s : ClientState) (peerId streamId : String) :
    ClientState :=
  match mapGet s.peerConnections peerId with
  | none => s
  | some pc =>
    if pc.trackListener then
      let rvs := if mapHas s.remoteVideos peerId then s.remoteVideos
        else mapSet s.remoteVideos peerId { srcObject := none }
      { s with remoteVideos := mapSet rvs peerId { srcObject := some streamId } }
    else s

/-- Dispatch of an `icecandidate` event for a peer's connection: the
listener body (lines 153-157) runs only if installed, and emits a
candidate envelope only when the event carries a candidate and a room
has been joined. -/
def dispatchIceCandidate (s : ClientState) (peerId : String)
    (c : Option Candidate) : ClientState × List ClientOut :=
  match mapGet s.peerConnections peerId with
  | none => (s, [])
  | some pc =>
    if pc.iceListener then
      match c, s.roomId with
      | some cand, some rid =>
        (s, [ClientOut.signalOut (some rid)
          { ty := "candidate", sdp := none, cand := some cand,
            toField := some peerId }])
      | _, _ => (s, [])
    else (s, [])

/-- Function `initMedia()` completing (lines 104-107): the local stream is
acquired with the given tracks. -/
def acquireMedia (s : ClientState) (ts : List String) : ClientState :=
  { s with localStream := some ts }

/-! ## ICE configuration endpoint (src/server.ts lines 19-45) -/

/-- An entry of the `iceServers` array. -/
structure IceServer : Type where
  urls : List String
  username : Option String
  credential : Option String
deriving DecidableEq, Repr

/-- The environment variables read by the endpoint. -/
structure IceEnv : Type where
  stunUrl : Option String
  turnUrl : Option String
  turnUsername : Option String
  turnPassword : Option String
deriving DecidableEq, Repr

/-- JavaScript truthiness of an environment variable: present and
non-empty. -/
def truthy (o : Option String) : Bool :=
  match o with
  | some v => v ≠ ""
  | none => false

/-- The hardcoded Metered fallback list (lines 35-41). -/
def fallbackServers : List IceServer :=
  [ { urls := ["stun:stun.relay.metered.ca:80"], username := none,
      credential := none },
    { urls := ["turn:global.relay.metered.ca:80"],
      username := some "a78e90d33f695bcbf13ee7b9",
      credential := some "+M16OuXBI+HyxP4i" },
    { urls := ["turn:global.relay.metered.ca:80?transport=tcp"],
      username := some "a78e90d33f695bcbf13ee7b9",
      credential := some "+M16OuXBI+HyxP4i" },
    { urls := ["turn:global.relay.metered.ca:443"],
      username := some "a78e90d33f695bcbf13ee7b9",
      credential := some "+M16OuXBI+HyxP4i" },
    { urls := ["turns:global.relay.metered.ca:443?transport=tcp"],
      username := some "a78e90d33f695bcbf13ee7b9",
      credential := some "+M16OuXBI+HyxP4i" } ]

/-- The `/ice.json` handler body: push the STUN entry when configured,
push the TURN entry when fully configured, fall back to the hardcoded
list when the array is still empty. -/
def iceJsonServers (e : IceEnv) : List IceServer :=
  let l1 : List IceServer :=
    if truthy e.stunUrl then
      [{ urls := [e.stunUrl.getD ""], username := none, credential := none }]
    else []
  let l2 : List IceServer :=
    if truthy e.turnUrl && truthy e.turnUsername && truthy e.turnPassword then
      l1 ++ [{ urls := [e.turnUrl.getD ""], username := e.turnUsername,
               credential := e.turnPassword }]
    else l1
  if l2.isEmpty then fallbackServers else l2

/-! ## Concrete states used by witnesses and counterexamples -/

/-- Two connected sockets, A already a member of room r. -/
def sGlare : ServerState := { connected := ["A", "B"], joined := [("A", "r")] }

/-- Client A: media acquired, empty registry, in room r. -/
def clientA : ClientState :=
  { localStream := some ["camA"], peerConnections := [], remoteVideos := [],
    roomId := some "r" }

/-- Two members of room r. -/
def sPair : ServerState :=
  { connected := ["A", "B"], joined := [("A", "r"), ("B", "r")] }

/-- A and B both members of the two rooms r1 and r2. -/
def sTwoRooms : ServerState :=
  { connected := ["A", "B"],
    joined := [("A", "r1"), ("A", "r2"), ("B", "r1"), ("B", "r2")] }

/-- A client with media and an empty registry. -/
def clientFresh : ClientState :=
  { localStream := some ["t1", "t2"], peerConnections := [], remoteVideos := [],
    roomId := some "r" }

/-- A client with no media and an empty registry. -/
def clientNoMedia : ClientState :=
  { localStream := none, peerConnections := [], remoteVideos := [],
    roomId := some "r" }

/-- An already-closed connection. -/
def closedPC : PC := { newPC with closed := true }

/-- A client holding only the closed connection for peer q. -/
def clientClosedQ : ClientState :=
  { localStream := some ["t1"], peerConnections := [("q", closedPC)],
    remoteVideos := [], roomId := some "r" }

/-- A well-formed candidate. -/
def cand1 : Candidate := { cid := "c1", wellFormed := true }

/-- Three connected sockets, A and B already members of room r. -/
def sTriple : ServerState :=
  { connected := ["A", "B", "C"], joined := [("A", "r"), ("B", "r")] }

/-! ## Occurrence counting -/

/-- Occurrences of `x` in `l`. -/
def cnt {α : Type} [DecidableEq α] (x : α) (l : List α) : Nat :=
  l.countP (fun e => decide (e = x))


/-! ## Lemmas -/

theorem mapGet_nil {α : Type} (k : String) :
    mapGet ([] : List (String × α)) k = none := rfl

theorem mapGet_cons {α : Type} (p : String × α) (m : List (String × α))
    (k : String) :
    mapGet (p :: m) k = if p.1 = k then some p.2 else mapGet m k := by
  rcases p with ⟨a, b⟩
  by_cases h : a = k
  · subst h
    simp [mapGet, List.lookup]
  · have hb : (k == a) = false := beq_eq_false_iff_ne.2 (Ne.symm h)
    simp [mapGet, List.lookup, hb, h]

theorem mapGet_eq_none_iff {α : Type} (m : List (String × α)) (k : String) :
    mapGet m k = none ↔ ∀ p ∈ m, p.1 ≠ k := by
  induction m with
  | nil => simp [mapGet_nil]
  | cons p m ih =>
    rw [mapGet_cons]
    by_cases h : p.1 = k
    · simp [h]
    · simp [h, ih]

theorem mapGet_replaceKey_self {α : Type} (m : List (String × α))
    (k : String) (v : α) (h : mapGet m k ≠ none) :
    mapGet (replaceKey m k v) k = some v := by
  induction m with
  | nil => simp [mapGet_nil] at h
  | cons p m ih =>
    rw [mapGet_cons] at h
    unfold replaceKey
    rw [List.map_cons]
    by_cases hp : p.1 = k
    · rw [if_pos hp, mapGet_cons]
      simp
    · rw [if_neg hp, mapGet_cons, if_neg hp]
      rw [if_neg hp] at h
      exact ih h

theorem mapGet_replaceKey_ne {α : Type} (m : List (String × α))
    (k q : String) (v : α) (hq : q ≠ k) :
    mapGet (replaceKey m k v) q = mapGet m q := by
  induction m with
  | nil => rfl
  | cons p m ih =>
    unfold replaceKey
    rw [List.map_cons, mapGet_cons, mapGet_cons]
    by_cases hp : p.1 = k
    · rw [if_pos hp]
      have h1 : ¬((k, v).1 = q) := fun hc => hq (hc.symm)
      rw [if_neg h1, if_neg (hp ▸ fun hc => hq hc.symm : ¬(p.1 = q))]
      exact ih
    · rw [if_neg hp]
      by_cases hpq : p.1 = q
      · simp [hpq]
      · rw [if_neg hpq, if_neg hpq]
        exact ih

theorem mapGet_append_single_self {α : Type} (m : List (String × α))
    (k : String) (v : α) (h : mapGet m k = none) :
    mapGet (m ++ [(k, v)]) k = some v := by
  induction m with
  | nil => simp [mapGet_cons]
  | cons p m ih =>
    rw [mapGet_cons] at h
    by_cases hp : p.1 = k
    · simp [hp] at h
    · rw [List.cons_append, mapGet_cons, if_neg hp]
      exact ih (by simpa [hp] using h)

theorem mapGet_append_single_ne {α : Type} (m : List (String × α))
    (k q : String) (v : α) (hq : q ≠ k) :
    mapGet (m ++ [(k, v)]) q = mapGet m q := by
  induction m with
  | nil =>
    rw [List.nil_append, mapGet_cons, mapGet_nil]
    exact if_neg fun hc => hq hc.symm
  | cons p m ih =>
    rw [List.cons_append, mapGet_cons, mapGet_cons]
    by_cases hpq : p.1 = q
    · simp [hpq]
    · rw [if_neg hpq, if_neg hpq]
      exact ih

theorem mapGet_mapSet_self {α : Type} (m : List (String × α)) (k : String)
    (v : α) : mapGet (mapSet m k v) k = some v := by
  unfold mapSet
  by_cases h : mapHas m k
  · rw [if_pos h]
    apply mapGet_replaceKey_self
    unfold mapHas at h
    intro hc
    rw [hc] at h
    simp at h
  · rw [if_neg h]
    apply mapGet_append_single_self
    unfold mapHas at h
    rcases ho : mapGet m k with _ | w
    · rfl
    · rw [ho] at h
      simp at h

theorem mapGet_mapSet_ne {α : Type} (m : List (String × α)) (k q : String)
    (v : α) (hq : q ≠ k) : mapGet (mapSet m k v) q = mapGet m q := by
  unfold mapSet
  by_cases h : mapHas m k
  · rw [if_pos h]
    exact mapGet_replaceKey_ne m k q v hq
  · rw [if_neg h]
    exact mapGet_append_single_ne m k q v hq

theorem mapGet_mapDelete_self {α : Type} (m : List (String × α))
    (k : String) : mapGet (mapDelete m k) k = none := by
  rw [mapGet_eq_none_iff]
  intro p hp
  unfold mapDelete at hp
  have := List.of_mem_filter hp
  simpa using this

theorem mapDelete_eq_self_of_get_none {α : Type} (m : List (String × α))
    (k : String) (h : mapGet m k = none) : mapDelete m k = m := by
  unfold mapDelete
  apply List.filter_eq_self.2
  intro p hp
  rw [mapGet_eq_none_iff] at h
  simpa using h p hp

theorem keys_replaceKey {α : Type} (m : List (String × α)) (k : String)
    (v : α) : (replaceKey m k v).map Prod.fst = m.map Prod.fst := by
  induction m with
  | nil => rfl
  | cons p m ih =>
    unfold replaceKey
    rw [List.map_cons, List.map_cons, List.map_cons]
    unfold replaceKey at ih
    rw [ih]
    by_cases hp : p.1 = k
    · rw [if_pos hp]
      simp [hp]
    · rw [if_neg hp]

theorem noDupKeys_mapSet {α : Type} (m : List (String × α)) (k : String)
    (v : α) (h : NoDupKeys m) : NoDupKeys (mapSet m k v) := by
  unfold mapSet
  by_cases hk : mapHas m k
  · rw [if_pos hk]
    unfold NoDupKeys
    rw [keys_replaceKey]
    exact h
  · rw [if_neg hk]
    unfold NoDupKeys at h ⊢
    rw [List.map_append]
    simp only [List.map_cons, List.map_nil]
    rw [List.nodup_append]
    refine ⟨h, List.nodup_singleton k, ?_⟩
    intro a ha hb
    simp only [List.mem_singleton] at hb
    rw [hb] at ha
    unfold mapHas at hk
    simp only [Bool.not_eq_true] at hk
    rw [List.mem_map] at ha
    obtain ⟨p, hp, hpk⟩ := ha
    have hn : mapGet m k = none := by
      rcases ho : mapGet m k with _ | w
      · rfl
      · rw [ho] at hk
        simp at hk
    rw [mapGet_eq_none_iff] at hn
    exact hn p hp hpk

theorem adapterRoom_nodup (s : ServerState) (r : String)
    (h : s.WF) : (adapterRoom s r).Nodup :=
  h.1.filter _

theorem mem_adapterRoom (s : ServerState) (r c : String) :
    c ∈ adapterRoom s r ↔
      c ∈ s.connected ∧ (c = r ∨ (c, r) ∈ s.joined) := by
  unfold adapterRoom
  rw [List.mem_filter]
  simp

theorem mem_adapterRoom_joinPair (s : ServerState) (sid r c : String)
    (hc : c ≠ sid) :
    (c ∈ adapterRoom (joinPair s sid r) r ↔ c ∈ adapterRoom s r) := by
  unfold joinPair
  by_cases h : (sid, r) ∈ s.joined
  · rw [if_pos h]
  · rw [if_neg h]
    rw [mem_adapterRoom, mem_adapterRoom]
    simp only [List.mem_append, List.mem_singleton]
    constructor
    · rintro ⟨h1, h2 | (h2 | h2)⟩
      · exact ⟨h1, Or.inl h2⟩
      · exact ⟨h1, Or.inr h2⟩
      · exact absurd (congrArg Prod.fst h2) (by simpa using hc)
    · rintro ⟨h1, h2 | h2⟩
      · exact ⟨h1, Or.inl h2⟩
      · exact ⟨h1, Or.inr (Or.inl h2)⟩


theorem cnt_nil {α : Type} [DecidableEq α] (x : α) : cnt x [] = 0 := rfl

theorem cnt_cons {α : Type} [DecidableEq α] (x a : α) (l : List α) :
    cnt x (a :: l) = cnt x l + if a = x then 1 else 0 := by
  unfold cnt
  rw [List.countP_cons]
  by_cases h : a = x
  · simp [h]
  · simp [h]

theorem cnt_append {α : Type} [DecidableEq α] (x : α) (l1 l2 : List α) :
    cnt x (l1 ++ l2) = cnt x l1 + cnt x l2 :=
  List.countP_append ..

theorem cnt_eq_zero {α : Type} [DecidableEq α] (x : α) (l : List α)
    (h : ∀ a ∈ l, a ≠ x) : cnt x l = 0 := by
  induction l with
  | nil => rfl
  | cons a l ih =>
    rw [cnt_cons, if_neg (h a (List.mem_cons_self a l)),
      ih (fun b hb => h b (List.mem_cons_of_mem a hb))]

theorem cnt_eq_one_of_nodup {α : Type} [DecidableEq α] (x : α)
    (l : List α) (hnd : l.Nodup) (hm : x ∈ l) : cnt x l = 1 := by
  induction l with
  | nil => simp at hm
  | cons a l ih =>
    rw [cnt_cons]
    rcases List.mem_cons.1 hm with h | h
    · rw [if_pos h.symm]
      rw [cnt_eq_zero x l (fun b hb hc => (List.nodup_cons.1 hnd).1
        (by rw [← h, ← hc]; exact hb))]
    · have ha : a ≠ x := fun hc => (List.nodup_cons.1 hnd).1 (hc ▸ h)
      rw [if_neg ha, ih (List.nodup_cons.1 hnd).2 h]

theorem cnt_le_one_of_nodup {α : Type} [DecidableEq α] (x : α)
    (l : List α) (hnd : l.Nodup) : cnt x l ≤ 1 := by
  by_cases hm : x ∈ l
  · rw [cnt_eq_one_of_nodup x l hnd hm]
  · rw [cnt_eq_zero x l (fun a ha hc => hm (hc ▸ ha))]
    exact Nat.zero_le 1

theorem cnt_eq_ite_of_nodup {α : Type} [DecidableEq α] (x : α)
    (l : List α) (hnd : l.Nodup) :
    cnt x l = if x ∈ l then 1 else 0 := by
  by_cases hm : x ∈ l
  · rw [if_pos hm, cnt_eq_one_of_nodup x l hnd hm]
  · rw [if_neg hm, cnt_eq_zero x l (fun a ha hc => hm (hc ▸ ha))]

theorem cnt_map_inj {α β : Type} [DecidableEq α] [DecidableEq β]
    (f : α → β) (hf : Function.Injective f) (x : α) (l : List α) :
    cnt (f x) (l.map f) = cnt x l := by
  unfold cnt
  rw [List.countP_map]
  apply List.countP_congr
  intro a _
  simp only [Function.comp]
  by_cases h : a = x
  · simp [h]
  · have hfa : ¬f a = f x := fun hc => h (hf hc)
    simp [h, hfa]

theorem cnt_flatMap {α β : Type} [DecidableEq β] (f : α → List β) (y : β)
    (l : List α) :
    cnt y (l.flatMap f) = (l.map (fun a => cnt y (f a))).sum := by
  induction l with
  | nil => rfl
  | cons a l ih =>
    rw [List.flatMap_cons, cnt_append, List.map_cons, List.sum_cons, ih]

theorem sum_map_ite_eq_length_filter {α : Type} (p : α → Bool)
    (l : List α) :
    (l.map (fun a => if p a then 1 else 0)).sum = (l.filter p).length := by
  induction l with
  | nil => rfl
  | cons a l ih =>
    rw [List.map_cons, List.sum_cons, List.filter_cons]
    by_cases h : p a
    · simp only [h, if_true, List.length_cons]
      rw [ih]
      omega
    · simp only [h]
      simp only [Bool.false_eq_true, if_false]
      rw [ih]
      omega

theorem filter_eq_of_nodup (l : List String) (hnd : l.Nodup) (t : String) :
    l.filter (fun c => decide (c = t)) = if t ∈ l then [t] else [] := by
  induction l with
  | nil => simp
  | cons a l ih =>
    rw [List.filter_cons]
    by_cases h : a = t
    · rw [if_pos (by simp [h])]
      have ht : t ∉ l := h ▸ (List.nodup_cons.1 hnd).1
      rw [ih (List.nodup_cons.1 hnd).2, if_neg ht, h,
        if_pos (List.mem_cons_self t l)]
    · rw [if_neg (by simp [h])]
      rw [ih (List.nodup_cons.1 hnd).2]
      by_cases hm : t ∈ l
      · rw [if_pos hm, if_pos (List.mem_cons_of_mem a hm)]
      · rw [if_neg hm, if_neg (fun hc => by
          rcases List.mem_cons.1 hc with hc | hc
          · exact h hc.symm
          · exact hm hc)]


theorem joinPair_WF (s : ServerState) (sid r : String) (h : s.WF) :
    (joinPair s sid r).WF := by
  unfold joinPair
  by_cases hm : (sid, r) ∈ s.joined
  · rw [if_pos hm]
    exact h
  · rw [if_neg hm]
    refine ⟨h.1, ?_⟩
    rw [List.nodup_append]
    exact ⟨h.2, List.nodup_singleton _,
      fun a ha hb => by
        simp only [List.mem_singleton] at hb
        subst hb
        exact hm ha⟩

/-! ## Claims -/

/-- C9: the GET /ice.json endpoint always responds with a non-empty
`iceServers` array; when no STUN/TURN environment variables are
configured it falls back to the hardcoded Metered server list rather
than returning an empty array. -/
theorem iceJson_nonempty (e : IceEnv) :
    iceJsonServers e ≠ [] ∧
    iceJsonServers
      { stunUrl := none, turnUrl := none, turnUsername := none,
        turnPassword := none } = fallbackServers := by
  refine ⟨?_, rfl⟩
  unfold iceJsonServers
  by_cases h1 : truthy e.stunUrl
  · by_cases h2 : truthy e.turnUrl && truthy e.turnUsername &&
        truthy e.turnPassword
    · simp [h1, h2]
    · simp [h1, h2]
  · by_cases h2 : truthy e.turnUrl && truthy e.turnUsername &&
        truthy e.turnPassword
    · simp [h1, h2]
    · simp [h1, h2, fallbackServers]

/-- Removing a peer whose id is bound in neither client map leaves the
state untouched. -/
theorem removePeer_eq_self (t : ClientState) (p : String)
    (h1 : mapGet t.peerConnections p = none)
    (h2 : mapGet t.remoteVideos p = none) : removePeer t p = t := by
  unfold removePeer
  rw [h1, h2]

/-- After `removePeer`, neither map binds the removed id. -/
theorem removePeer_get_none (s : ClientState) (p : String) :
    mapGet (removePeer s p).peerConnections p = none ∧
    mapGet (removePeer s p).remoteVideos p = none := by
  constructor
  · rcases h : mapGet s.peerConnections p with _ | pc
    · simp [removePeer, h]
    · simp [removePeer, h, mapGet_mapDelete_self]
  · rcases h : mapGet s.remoteVideos p with _ | v
    · simp [removePeer, h]
    · simp [removePeer, h, mapGet_mapDelete_self]

/-- C6: the peer-left teardown of the Connection Registry is
idempotent — running `removePeer` a second time for the same peer
identifier leaves the connection map and the video-sink map (hence the
whole registry state) unchanged. -/
theorem removePeer_idempotent (s : ClientState) (p : String) :
    removePeer (removePeer s p) p = removePeer s p :=
  removePeer_eq_self (removePeer s p) p
    (removePeer_get_none s p).1 (removePeer_get_none s p).2

/-- C5: an answer envelope or a candidate envelope whose sender has no
registered PeerLink is dropped with no state change and no emission;
and a candidate whose application fails on an existing PeerLink is
caught and ignored, leaving the state unchanged. -/
theorem stale_signal_noop (s : ClientState) (fromId sdp : String)
    (c : Candidate) (pc : PC) :
    (mapGet s.peerConnections fromId = none →
      handleAnswer s fromId sdp = (s, []) ∧
      handleCandidate s fromId c = (s, [])) ∧
    (mapGet s.peerConnections fromId = some pc →
      addIceCandidate pc c = none →
      handleCandidate s fromId c = (s, [])) := by
  constructor
  · intro h
    constructor
    · simp [handleAnswer, h]
    · simp [handleCandidate, h]
  · intro h hfail
    simp [handleCandidate, h, hfail]

/-- Witness for C5 at concrete states: an unknown sender is a no-op,
and a candidate rejected by a closed connection is a no-op. -/
theorem stale_signal_noop_witness :
    (handleAnswer clientFresh "q" "sdp1" = (clientFresh, []) ∧
     handleCandidate clientFresh "q" cand1 = (clientFresh, [])) ∧
    handleCandidate clientClosedQ "q" cand1 = (clientClosedQ, []) :=
  ⟨(stale_signal_noop clientFresh "q" "sdp1" cand1 newPC).1 rfl,
   (stale_signal_noop clientClosedQ "q" "sdp1" cand1 closedPC).2 rfl rfl⟩

/-- C8: on an incoming offer from peer p the client ends up with a
registered PeerLink for p whose remote description is the offer and
whose local description is the generated answer, and it emits exactly
one answer envelope, addressed to p via the `to` field, carrying that
answer's SDP. -/
theorem handleOffer_answers (s : ClientState) (fromId sdp : String) :
    ∃ pc1 ans,
      mapGet (handleOffer s fromId sdp).1.peerConnections fromId = some pc1 ∧
      pc1.remoteDesc = some { ty := "offer", sdp := some sdp } ∧
      pc1.localDesc = some ans ∧
      ans = createAnswer { (createPeerConnection s fromId).2 with
        remoteDesc := some { ty := "offer", sdp := some sdp } } ∧
      ans.ty = "answer" ∧
      (handleOffer s fromId sdp).2 =
        [ClientOut.signalOut s.roomId
          { ty := "answer", sdp := ans.sdp, cand := none,
            toField := some fromId }] := by
  refine ⟨{ (createPeerConnection s fromId).2 with
      remoteDesc := some { ty := "offer", sdp := some sdp },
      localDesc := some (createAnswer { (createPeerConnection s fromId).2 with
        remoteDesc := some { ty := "offer", sdp := some sdp } }) },
    createAnswer { (createPeerConnection s fromId).2 with
      remoteDesc := some { ty := "offer", sdp := some sdp } },
    ?_, rfl, rfl, rfl, rfl, rfl⟩
  unfold handleOffer
  exact mapGet_mapSet_self ..

/-- C7: `createPeerConnection` returns the already-registered PeerLink
unchanged when one exists; otherwise it registers exactly one new
PeerLink carrying all currently-held local media tracks, leaving every
other binding alone; and the registry keeps at most one PeerLink per
remote identifier. -/
theorem createPeerConnection_get_or_create (s : ClientState) (p : String)
    (h : NoDupKeys s.peerConnections) :
    (∀ pc, mapGet s.peerConnections p = some pc →
      createPeerConnection s p = (s, pc)) ∧
    (mapGet s.peerConnections p = none →
      mapGet (createPeerConnection s p).1.peerConnections p =
        some (createPeerConnection s p).2 ∧
      (createPeerConnection s p).2.tracks = s.localStream.getD [] ∧
      (∀ q, q ≠ p →
        mapGet (createPeerConnection s p).1.peerConnections q =
          mapGet s.peerConnections q)) ∧
    NoDupKeys (createPeerConnection s p).1.peerConnections ∧
    cnt p ((createPeerConnection s p).1.peerConnections.map Prod.fst) ≤ 1 := by
  refine ⟨?_, ?_, ?_, ?_⟩
  · intro pc hpc
    simp [createPeerConnection, hpc]
  · intro hn
    rcases hls : s.localStream with _ | ts
    · refine ⟨?_, ?_, ?_⟩
      · simp only [createPeerConnection, hn, hls]
        exact mapGet_mapSet_self ..
      · simp [createPeerConnection, hn, hls, newPC]
      · intro q hq
        simp only [createPeerConnection, hn, hls]
        exact mapGet_mapSet_ne _ _ _ _ hq
    · refine ⟨?_, ?_, ?_⟩
      · simp only [createPeerConnection, hn, hls]
        exact mapGet_mapSet_self ..
      · simp [createPeerConnection, hn, hls, newPC]
      · intro q hq
        simp only [createPeerConnection, hn, hls]
        exact mapGet_mapSet_ne _ _ _ _ hq
  · rcases hm : mapGet s.peerConnections p with _ | pc0
    · rcases hls : s.localStream with _ | ts
      · simp only [createPeerConnection, hm, hls]
        exact noDupKeys_mapSet _ _ _ h
      · simp only [createPeerConnection, hm, hls]
        exact noDupKeys_mapSet _ _ _ h
    · simp only [createPeerConnection, hm]
      exact h
  · have hnd : NoDupKeys (createPeerConnection s p).1.peerConnections := by
      rcases hm : mapGet s.peerConnections p with _ | pc0
      · rcases hls : s.localStream with _ | ts
        · simp only [createPeerConnection, hm, hls]
          exact noDupKeys_mapSet _ _ _ h
        · simp only [createPeerConnection, hm, hls]
          exact noDupKeys_mapSet _ _ _ h
      · simp only [createPeerConnection, hm]
        exact h
    exact cnt_le_one_of_nodup _ _ hnd

/-- Witness for C7 at a concrete state: registering a fresh peer in an
empty registry stores the new PeerLink with both local tracks attached
and keeps the keys duplicate-free. -/
theorem createPeerConnection_get_or_create_witness :
    mapGet (createPeerConnection clientFresh "q").1.peerConnections "q" =
      some (createPeerConnection clientFresh "q").2 ∧
    (createPeerConnection clientFresh "q").2.tracks = ["t1", "t2"] ∧
    NoDupKeys (createPeerConnection clientFresh "q").1.peerConnections := by
  have h := createPeerConnection_get_or_create clientFresh "q"
    (by simp [NoDupKeys, clientFresh])
  refine ⟨(h.2.1 rfl).1, ?_, h.2.2.1⟩
  rw [(h.2.1 rfl).2.1]
  rfl

/-- C10: calling `createPeerConnection` while no local media is held
still registers the connection, but it gets no tracks and no `track` or
`icecandidate` listeners; consequently, even after media is acquired
later, a track event materializes no remote video for that peer, an
icecandidate event emits nothing, and a later `createPeerConnection`
returns the same listenerless connection. -/
theorem createPeerConnection_without_media (s : ClientState) (p : String)
    (h : s.localStream = none)
    (h2 : mapGet s.peerConnections p = none)
    (h3 : mapGet s.remoteVideos p = none) :
    mapGet (createPeerConnection s p).1.peerConnections p = some newPC ∧
    (createPeerConnection s p).2 = newPC ∧
    newPC.tracks = [] ∧ newPC.trackListener = false ∧
    newPC.iceListener = false ∧
    (∀ ts streamId c,
      dispatchTrack (acquireMedia (createPeerConnection s p).1 ts) p
          streamId = acquireMedia (createPeerConnection s p).1 ts ∧
      mapGet (dispatchTrack (acquireMedia (createPeerConnection s p).1 ts)
          p streamId).remoteVideos p = none ∧
      dispatchIceCandidate (acquireMedia (createPeerConnection s p).1 ts) p
          (some c) = (acquireMedia (createPeerConnection s p).1 ts, []) ∧
      createPeerConnection (acquireMedia (createPeerConnection s p).1 ts) p =
        (acquireMedia (createPeerConnection s p).1 ts, newPC)) := by
  have hcp : createPeerConnection s p =
      (({ s with peerConnections := mapSet s.peerConnections p newPC }),
        newPC) := by
    simp [createPeerConnection, h2, h]
  rw [hcp]
  have hget : ∀ ts, mapGet (acquireMedia
      ({ s with peerConnections := mapSet s.peerConnections p newPC }) ts
        ).peerConnections p = some newPC := by
    intro ts
    simp only [acquireMedia]
    exact mapGet_mapSet_self ..
  refine ⟨mapGet_mapSet_self .., rfl, rfl, rfl, rfl, ?_⟩
  intro ts streamId c
  have htr : dispatchTrack (acquireMedia
      ({ s with peerConnections := mapSet s.peerConnections p newPC }) ts)
      p streamId = acquireMedia
      ({ s with peerConnections := mapSet s.peerConnections p newPC }) ts := by
    unfold dispatchTrack
    rw [hget ts]
    simp [newPC]
  refine ⟨htr, ?_, ?_, ?_⟩
  · rw [htr]
    simpa [acquireMedia] using h3
  · unfold dispatchIceCandidate
    rw [hget ts]
    simp [newPC]
  · unfold createPeerConnection
    rw [hget ts]

/-- Witness for C10 at a concrete state: a client with no media
registers a listenerless connection, and after media acquisition the
track and icecandidate dispatches for that peer stay inert. -/
theorem createPeerConnection_without_media_witness :
    mapGet (createPeerConnection clientNoMedia "q").1.peerConnections "q" =
      some newPC ∧
    dispatchTrack (acquireMedia (createPeerConnection clientNoMedia "q").1
      ["tNew"]) "q" "stream1" =
      acquireMedia (createPeerConnection clientNoMedia "q").1 ["tNew"] ∧
    dispatchIceCandidate (acquireMedia
        (createPeerConnection clientNoMedia "q").1 ["tNew"]) "q"
        (some cand1) =
      (acquireMedia (createPeerConnection clientNoMedia "q").1 ["tNew"], []) := by
  have h := createPeerConnection_without_media clientNoMedia "q" rfl rfl rfl
  exact ⟨h.1, (h.2.2.2.2.2 ["tNew"] "stream1" cand1).1,
    (h.2.2.2.2.2 ["tNew"] "stream1" cand1).2.2.1⟩

/-- Counting a pair in a list of pairs built from a duplicate-free list
of recipients with a fixed message. -/
theorem cnt_pair_map (l : List String) (msg : Msg) (hnd : l.Nodup)
    (m : String) :
    cnt ((m, msg)) (l.map (fun e => (e, msg))) = if m ∈ l then 1 else 0 := by
  have hinj : Function.Injective (fun e => ((e, msg) : String × Msg)) := by
    intro a b hab
    simpa using hab
  have h' : cnt ((m, msg)) (l.map (fun e => (e, msg))) = cnt m l := by
    simpa using cnt_map_inj (fun e => ((e, msg) : String × Msg)) hinj m l
  rw [h', cnt_eq_ite_of_nodup m l hnd]

/-- Counting announces in a two-phase join emission: `l1` are the
members announced to the newcomer `sid`, `l2` the members the newcomer
is announced to; both lists exclude `sid` and are duplicate-free. -/
theorem announce_count (l1 l2 : List String) (sid : String)
    (hnd1 : l1.Nodup) (hnd2 : l2.Nodup)
    (h1 : ∀ e ∈ l1, e ≠ sid) (h2 : ∀ e ∈ l2, e ≠ sid) :
    (∀ m, cnt ((sid, Msg.peerJoined m))
        (l1.map (fun e => (sid, Msg.peerJoined e)) ++
         l2.map (fun e => (e, Msg.peerJoined sid))) =
        if m ∈ l1 then 1 else 0) ∧
    cnt ((sid, Msg.peerJoined sid))
      (l1.map (fun e => (sid, Msg.peerJoined e)) ++
       l2.map (fun e => (e, Msg.peerJoined sid))) = 0 ∧
    (∀ m, m ≠ sid →
      cnt ((m, Msg.peerJoined sid))
        (l1.map (fun e => (sid, Msg.peerJoined e)) ++
         l2.map (fun e => (e, Msg.peerJoined sid))) =
        if m ∈ l2 then 1 else 0) ∧
    (∀ m, cnt ((m, Msg.peerJoined sid))
        (l1.map (fun e => (sid, Msg.peerJoined e)) ++
         l2.map (fun e => (e, Msg.peerJoined sid))) ≤ 1) := by
  have hinj1 : Function.Injective
      (fun e => ((sid, Msg.peerJoined e) : String × Msg)) := by
    intro a b hab
    simpa using hab
  have hinj2 : Function.Injective
      (fun e => ((e, Msg.peerJoined sid) : String × Msg)) := by
    intro a b hab
    simpa using hab
  have hz1 : ∀ m, cnt ((m, Msg.peerJoined sid))
      (l1.map (fun e => (sid, Msg.peerJoined e))) = 0 := by
    intro m
    apply cnt_eq_zero
    intro a ha hEq
    rw [List.mem_map] at ha
    obtain ⟨e, he, rfl⟩ := ha
    have h2nd : Msg.peerJoined e = Msg.peerJoined sid :=
      congrArg Prod.snd hEq
    exact h1 e he (by simpa using h2nd)
  have hz2 : ∀ m, cnt ((sid, Msg.peerJoined m))
      (l2.map (fun e => (e, Msg.peerJoined sid))) = 0 := by
    intro m
    apply cnt_eq_zero
    intro a ha hEq
    rw [List.mem_map] at ha
    obtain ⟨e, he, rfl⟩ := ha
    exact h2 e he (congrArg Prod.fst hEq)
  refine ⟨?_, ?_, ?_, ?_⟩
  · intro m
    rw [cnt_append, hz2 m, Nat.add_zero]
    have h' : cnt ((sid, Msg.peerJoined m))
        (l1.map (fun e => (sid, Msg.peerJoined e))) = cnt m l1 := by
      simpa using cnt_map_inj
        (fun e => ((sid, Msg.peerJoined e) : String × Msg)) hinj1 m l1
    rw [h', cnt_eq_ite_of_nodup m l1 hnd1]
  · rw [cnt_append, hz1 sid, hz2 sid]
  · intro m _
    rw [cnt_append, hz1 m, Nat.zero_add]
    have h' : cnt ((m, Msg.peerJoined sid))
        (l2.map (fun e => (e, Msg.peerJoined sid))) = cnt m l2 := by
      simpa using cnt_map_inj
        (fun e => ((e, Msg.peerJoined sid) : String × Msg)) hinj2 m l2
    rw [h', cnt_eq_ite_of_nodup m l2 hnd2]
  · intro m
    rw [cnt_append, hz1 m, Nat.zero_add]
    exact cnt_le_one_of_nodup _ _ (hnd2.map hinj2)

/-- Well-formedness from duplicate-freeness of the two components. -/
theorem wf_of_nodup (s : ServerState) (h1 : s.connected.Nodup)
    (h2 : s.joined.Nodup) : s.WF := ⟨h1, h2⟩

/-- The explicit join performed by `joinPair` is recorded. -/
theorem mem_joined_joinPair (s : ServerState) (sid r : String) :
    (sid, r) ∈ (joinPair s sid r).joined := by
  unfold joinPair
  by_cases h : (sid, r) ∈ s.joined
  · rw [if_pos h]
    exact h
  · rw [if_neg h]
    simp

/-- C1 (amended): every client reacts to a `peer-joined` announce for a
peer p by sending exactly one initiating offer envelope addressed to p
(recording the offer as the local description first).  Since the server
announces the newcomer to existing members as well as existing members
to the newcomer, both sides initiate toward each other; initiation is
symmetric, not newcomer-only. -/
theorem onPeerJoined_always_offers (s : ClientState) (p : String) :
    ∃ pc1,
      mapGet (onPeerJoined s p).1.peerConnections p = some pc1 ∧
      pc1.localDesc = some (createOffer (createPeerConnection s p).2) ∧
      (onPeerJoined s p).2 =
        [ClientOut.signalOut s.roomId
          { ty := "offer",
            sdp := (createOffer (createPeerConnection s p).2).sdp,
            cand := none, toField := some p }] := by
  refine ⟨{ (createPeerConnection s p).2 with
      localDesc := some (createOffer (createPeerConnection s p).2) },
    ?_, rfl, rfl⟩
  unfold onPeerJoined makeCall
  exact mapGet_mapSet_self ..

/-- C1 counterexample: with A an existing member of room r and B the
newcomer, the server's join handling announces B to A, and A's
`peer-joined` handler reacts by sending an initiating offer envelope
addressed to B — the existing member does initiate toward the
newcomer. -/
theorem existing_member_initiates_cex :
    ("A", Msg.peerJoined "B") ∈ (joinServer sGlare "B" "r").2 ∧
    (onPeerJoined clientA "B").2 =
      [ClientOut.signalOut (some "r")
        { ty := "offer", sdp := some "offer-camA", cand := none,
          toField := some "B" }] := by
  constructor
  · decide
  · rfl

/-- C2: a `join(sid, r)` first sends the joining client exactly one
`peer-joined` per pre-existing room member (and none for itself), then
adds the client to the room, then sends each pre-existing member — and
nobody else — exactly one `peer-joined` carrying the newcomer's id; no
member receives that announce more than once.  The emission order puts
all announces to the newcomer before all announces to the members. -/
theorem joinServer_announce_spec (s : ServerState) (sid r : String)
    (h : s.WF) :
    (∃ es1 es2, (joinServer s sid r).2 = es1 ++ es2 ∧
      (∀ x ∈ es1, x.1 = sid) ∧
      (∀ x ∈ es2, x.1 ≠ sid ∧ x.2 = Msg.peerJoined sid)) ∧
    (∀ m, m ∈ adapterRoom s r → m ≠ sid →
      cnt ((sid, Msg.peerJoined m)) (joinServer s sid r).2 = 1) ∧
    cnt ((sid, Msg.peerJoined sid)) (joinServer s sid r).2 = 0 ∧
    (sid ∈ s.connected → sid ∈ adapterRoom (joinServer s sid r).1 r) ∧
    (∀ m, m ∈ adapterRoom s r → m ≠ sid →
      cnt ((m, Msg.peerJoined sid)) (joinServer s sid r).2 = 1) ∧
    (∀ m, m ∉ adapterRoom s r → m ≠ sid →
      cnt ((m, Msg.peerJoined sid)) (joinServer s sid r).2 = 0) ∧
    (∀ m, cnt ((m, Msg.peerJoined sid)) (joinServer s sid r).2 ≤ 1) := by
  have hWF1 : (joinPair s sid r).WF := joinPair_WF s sid r h
  have hnd1 : ((adapterRoom s r).filter (fun e => e ≠ sid)).Nodup :=
    (adapterRoom_nodup s r h).filter _
  have hnd2 : ((adapterRoom (joinPair s sid r) r).filter
      (fun e => e ≠ sid)).Nodup :=
    (adapterRoom_nodup (joinPair s sid r) r hWF1).filter _
  have h1 : ∀ e ∈ (adapterRoom s r).filter (fun e => e ≠ sid),
      e ≠ sid := by
    intro e he
    have := (List.mem_filter.1 he).2
    simpa using this
  have h2 : ∀ e ∈ (adapterRoom (joinPair s sid r) r).filter
      (fun e => e ≠ sid), e ≠ sid := by
    intro e he
    have := (List.mem_filter.1 he).2
    simpa using this
  have hsplit : (joinServer s sid r).2 =
      ((adapterRoom s r).filter (fun e => e ≠ sid)).map
        (fun e => (sid, Msg.peerJoined e)) ++
      ((adapterRoom (joinPair s sid r) r).filter (fun e => e ≠ sid)).map
        (fun e => (e, Msg.peerJoined sid)) := rfl
  have hac := announce_count
    ((adapterRoom s r).filter (fun e => e ≠ sid))
    ((adapterRoom (joinPair s sid r) r).filter (fun e => e ≠ sid))
    sid hnd1 hnd2 h1 h2
  have hmem1 : ∀ m, m ≠ sid →
      (m ∈ (adapterRoom s r).filter (fun e => e ≠ sid) ↔
        m ∈ adapterRoom s r) := by
    intro m hm
    rw [List.mem_filter]
    simp [hm]
  have hmem2 : ∀ m, m ≠ sid →
      (m ∈ (adapterRoom (joinPair s sid r) r).filter (fun e => e ≠ sid) ↔
        m ∈ adapterRoom s r) := by
    intro m hm
    rw [List.mem_filter]
    simp [hm, mem_adapterRoom_joinPair s sid r m hm]
  refine ⟨?_, ?_, ?_, ?_, ?_, ?_, ?_⟩
  · refine ⟨_, _, hsplit, ?_, ?_⟩
    · intro x hx
      rw [List.mem_map] at hx
      obtain ⟨e, _, rfl⟩ := hx
      rfl
    · intro x hx
      rw [List.mem_map] at hx
      obtain ⟨e, he, rfl⟩ := hx
      exact ⟨h2 e he, rfl⟩
  · intro m hmem hm
    rw [hsplit, hac.1 m, if_pos ((hmem1 m hm).2 hmem)]
  · rw [hsplit]
    exact hac.2.1
  · intro hc
    rw [mem_adapterRoom]
    have hconn : (joinPair s sid r).connected = s.connected := by
      unfold joinPair
      by_cases hj : (sid, r) ∈ s.joined
      · rw [if_pos hj]
      · rw [if_neg hj]
    constructor
    · show sid ∈ (joinPair s sid r).connected
      rw [hconn]
      exact hc
    · exact Or.inr (mem_joined_joinPair s sid r)
  · intro m hmem hm
    rw [hsplit, hac.2.2.1 m hm, if_pos ((hmem2 m hm).2 hmem)]
  · intro m hmem hm
    rw [hsplit, hac.2.2.1 m hm,
      if_neg (fun hc => hmem ((hmem2 m hm).1 hc))]
  · intro m
    rw [hsplit]
    exact hac.2.2.2 m

/-- Witness for C2 at a concrete state: C joins room r already holding
A and B; C is announced once for each of A and B and never for itself,
and each of A and B receives the newcomer announce exactly once. -/
theorem joinServer_announce_spec_witness :
    cnt (("C", Msg.peerJoined "A")) (joinServer sTriple "C" "r").2 = 1 ∧
    cnt (("C", Msg.peerJoined "C")) (joinServer sTriple "C" "r").2 = 0 ∧
    cnt (("A", Msg.peerJoined "C")) (joinServer sTriple "C" "r").2 = 1 ∧
    cnt (("B", Msg.peerJoined "C")) (joinServer sTriple "C" "r").2 = 1 := by
  have h := joinServer_announce_spec sTriple "C" "r"
    (wf_of_nodup sTriple (by decide) (by decide))
  exact ⟨h.2.1 "A" (by decide) (by decide), h.2.2.1,
    h.2.2.2.2.1 "A" (by decide) (by decide),
    h.2.2.2.2.1 "B" (by decide) (by decide)⟩

/-- A propositional `if` agrees with its `decide`d Boolean form. -/
theorem ite_decide_eq (p : Prop) [Decidable p] :
    (if p then (1 : Nat) else 0) = if decide p = true then (1 : Nat) else 0 := by
  by_cases h : p
  · simp [h]
  · simp [h]

/-- C3 (amended): a relayed signal with `to` set is delivered exactly
once to each socket of the adapter room named by `to` — when no client
has joined a room carrying that name, that is the target client alone
if connected and nobody otherwise — and it reaches the sender exactly
when `to` is the sender's own identifier or names a room the sender
joined; with `to` absent it is delivered exactly once to every other
member of the named room and never back to the sender. -/
theorem signalServer_relay_spec (s : ServerState) (sid r ty t : String)
    (h : s.WF) :
    ((∀ e, cnt ((e, Msg.signalMsg sid r ty (some t)))
        (signalServer s sid r ty (some t)).2 =
        if e ∈ adapterRoom s t then 1 else 0) ∧
     ((∀ c ∈ s.connected, (c, t) ∉ s.joined) →
        (signalServer s sid r ty (some t)).2 =
          if t ∈ s.connected then [(t, Msg.signalMsg sid r ty (some t))]
          else []) ∧
     (cnt ((sid, Msg.signalMsg sid r ty (some t)))
        (signalServer s sid r ty (some t)).2 = 1 ↔
        sid ∈ s.connected ∧ (sid = t ∨ (sid, t) ∈ s.joined))) ∧
    ((∀ e, cnt ((e, Msg.signalMsg sid r ty none))
        (signalServer s sid r ty none).2 =
        if e ∈ adapterRoom s r ∧ e ≠ sid then 1 else 0) ∧
     cnt ((sid, Msg.signalMsg sid r ty none))
        (signalServer s sid r ty none).2 = 0) := by
  have hdir : (signalServer s sid r ty (some t)).2 =
      (adapterRoom s t).map
        (fun e => (e, Msg.signalMsg sid r ty (some t))) := rfl
  have hbro : (signalServer s sid r ty none).2 =
      ((adapterRoom s r).filter (fun e => e ≠ sid)).map
        (fun e => (e, Msg.signalMsg sid r ty none)) := rfl
  have hndb : ((adapterRoom s r).filter (fun e => e ≠ sid)).Nodup :=
    (adapterRoom_nodup s r h).filter _
  have hbro1 : ∀ e, cnt ((e, Msg.signalMsg sid r ty none))
      (signalServer s sid r ty none).2 =
      if e ∈ adapterRoom s r ∧ e ≠ sid then 1 else 0 := by
    intro e
    rw [hbro, cnt_pair_map _ _ hndb e]
    by_cases hmem : e ∈ adapterRoom s r ∧ e ≠ sid
    · rw [if_pos (List.mem_filter.2 ⟨hmem.1, by simp [hmem.2]⟩),
        if_pos hmem]
    · rw [if_neg (fun hc => hmem ⟨(List.mem_filter.1 hc).1,
        by simpa using (List.mem_filter.1 hc).2⟩), if_neg hmem]
  refine ⟨⟨?_, ?_, ?_⟩, hbro1, ?_⟩
  · intro e
    rw [hdir, cnt_pair_map _ _ (adapterRoom_nodup s t h) e]
  · intro hna
    have hroom : adapterRoom s t =
        s.connected.filter (fun c => decide (c = t)) := by
      unfold adapterRoom
      apply List.filter_congr
      intro c hc
      by_cases hct : c = t
      · simp [hct]
      · simp [hct, hna c hc]
    rw [hdir, hroom, filter_eq_of_nodup s.connected h.1 t]
    by_cases ht : t ∈ s.connected
    · rw [if_pos ht, if_pos ht]
      rfl
    · rw [if_neg ht, if_neg ht]
      rfl
  · rw [hdir, cnt_pair_map _ _ (adapterRoom_nodup s t h) sid]
    by_cases hmem : sid ∈ adapterRoom s t
    · rw [if_pos hmem, mem_adapterRoom] at *
      simp [hmem]
    · rw [if_neg hmem]
      rw [mem_adapterRoom] at hmem
      simp [hmem]
  · rw [hbro1 sid]
    exact if_neg (fun hc => hc.2 rfl)

/-- Witness for C3 at a concrete state: a directed signal from A to B
in a two-member room is delivered to B alone, and the broadcast form is
never delivered back to the sender. -/
theorem signalServer_relay_spec_witness :
    (signalServer sPair "A" "r" "offer" (some "B")).2 =
      [("B", Msg.signalMsg "A" "r" "offer" (some "B"))] ∧
    cnt (("A", Msg.signalMsg "A" "r" "offer" none))
      (signalServer sPair "A" "r" "offer" none).2 = 0 := by
  have h := signalServer_relay_spec sPair "A" "r" "offer" "B"
    (wf_of_nodup sPair (by decide) (by decide))
  refine ⟨?_, h.2.2⟩
  rw [h.1.2.1 (by decide),
    if_pos (by decide : ("B" : String) ∈ sPair.connected)]

/-- C3 counterexample: a signal whose `to` field names the sender's own
identifier is delivered back to the sender, contradicting the claim
that an envelope is never delivered back to its sender. -/
theorem signal_to_sender_cex :
    (signalServer sPair "A" "r" "offer" (some "A")).2 =
      [("A", Msg.signalMsg "A" "r" "offer" (some "A"))] := by
  decide

/-- C4 (amended): on disconnect of client C the server emits, for each
room C was in, exactly one `peer-left(C)` to every other member of that
room; a client therefore receives one notice per room it shares with C
— in particular exactly one when it shares exactly one room — and a
client sharing no room with C receives none; C is then removed from the
connection set and from every room. -/
theorem disconnecting_notice_spec (s : ServerState) (sid m : String)
    (h : s.WF) (hm : m ≠ sid) :
    cnt ((m, Msg.peerLeft sid)) (disconnecting s sid).2 =
      ((roomsOfClient s sid).filter
        (fun r => m ∈ adapterRoom s r)).length ∧
    ((∀ r ∈ roomsOfClient s sid, m ∉ adapterRoom s r) →
      cnt ((m, Msg.peerLeft sid)) (disconnecting s sid).2 = 0) ∧
    (∀ r ∈ roomsOfClient s sid, m ∈ adapterRoom s r →
      cnt ((m, Msg.peerLeft sid))
        (((adapterRoom s r).filter (fun e => e ≠ sid)).map
          (fun e => (e, Msg.peerLeft sid))) = 1) ∧
    sid ∉ (disconnecting s sid).1.connected ∧
    (∀ r, (sid, r) ∉ (disconnecting s sid).1.joined) := by
  have hsplit : (disconnecting s sid).2 =
      (roomsOfClient s sid).flatMap (fun r =>
        ((adapterRoom s r).filter (fun e => e ≠ sid)).map
          (fun e => (e, Msg.peerLeft sid))) := rfl
  have hinner : ∀ r, cnt ((m, Msg.peerLeft sid))
      (((adapterRoom s r).filter (fun e => e ≠ sid)).map
        (fun e => (e, Msg.peerLeft sid))) =
      if m ∈ adapterRoom s r then 1 else 0 := by
    intro r
    rw [cnt_pair_map _ _ ((adapterRoom_nodup s r h).filter _) m]
    by_cases hmem : m ∈ adapterRoom s r
    · rw [if_pos (List.mem_filter.2 ⟨hmem, by simp [hm]⟩), if_pos hmem]
    · rw [if_neg (fun hc => hmem (List.mem_filter.1 hc).1), if_neg hmem]
  have hmain : cnt ((m, Msg.peerLeft sid)) (disconnecting s sid).2 =
      ((roomsOfClient s sid).filter
        (fun r => m ∈ adapterRoom s r)).length := by
    rw [hsplit, cnt_flatMap]
    have hcong :
        (roomsOfClient s sid).map (fun r => cnt ((m, Msg.peerLeft sid))
          (((adapterRoom s r).filter (fun e => e ≠ sid)).map
            (fun e => (e, Msg.peerLeft sid)))) =
        (roomsOfClient s sid).map
          (fun r => if decide (m ∈ adapterRoom s r) = true then 1
            else 0) := by
      apply List.map_congr_left
      intro r _
      rw [hinner r, ite_decide_eq]
    rw [hcong]
    exact sum_map_ite_eq_length_filter _ _
  refine ⟨hmain, ?_, ?_, ?_, ?_⟩
  · intro hall
    rw [hmain, List.filter_eq_nil_iff.2 (fun r hr => by
      simpa using hall r hr)]
    rfl
  · intro r _ hmem
    rw [hinner r, if_pos hmem]
  · intro hc
    have := (List.mem_filter.1 hc).2
    simp at this
  · intro r hc
    have := (List.mem_filter.1 hc).2
    simp at this

/-- Witness for C4 at a concrete state: B's notice count equals the
number of rooms it shares with the disconnecting client A, and A is
removed from the connection set. -/
theorem disconnecting_notice_spec_witness :
    cnt (("B", Msg.peerLeft "A")) (disconnecting sTwoRooms "A").2 =
      ((roomsOfClient sTwoRooms "A").filter
        (fun r => "B" ∈ adapterRoom sTwoRooms r)).length ∧
    "A" ∉ (disconnecting sTwoRooms "A").1.connected := by
  have h := disconnecting_notice_spec sTwoRooms "A" "B"
    (wf_of_nodup sTwoRooms (by decide) (by decide)) (by decide)
  exact ⟨h.1, h.2.2.2.1⟩

/-- C4 counterexample: client B remains a member of room r1, which the
disconnecting client A belonged to, yet B receives the `peer-left(A)`
notice twice (once per shared room), not exactly once. -/
theorem disconnecting_double_notice_cex :
    "r1" ∈ roomsOfClient sTwoRooms "A" ∧
    "B" ∈ adapterRoom sTwoRooms "r1" ∧
    cnt (("B", Msg.peerLeft "A")) (disconnecting sTwoRooms "A").2 = 2 := by
  decide

end AgoraX
